import Mathlib

/-!
Verification development for the task dependency graph construction and
incremental execution engine of the buildpipe repository (src/tasks/tasks.go,
src/config/job.go, src/config/env.go), shallowly embedded in Lean 4.

Machinery that the repository consumes but that is not under src/ (the
task-name package, the execution-context package, the per-kind GetTaskConfig
constructors) is modelled from the specification and marked as such in the
doc comment of each affected definition.
-/

/-! ## Name model

Modelled from the spec: the task-name package (ParseName, the Name type and
its canonical string form, the name Stack) is not part of src/.  A Name is a
resource identifier plus an action identifier; ParseName splits on the action
separator, fails when the resource part is empty, and the action defaults to
the canonical action when omitted (represented here by the literal string
"default"); equality is by (resource, action) pair.
-/

structure Name where
  resource : String
  action : String
deriving DecidableEq

def Name.str (n : Name) : String :=
  n.resource ++ ":" ++ n.action

/-- Splits a character list at the first colon: the Go strings.SplitN(s, ":", 2). -/
def splitFirst : List Char → List Char × Option (List Char)
  | [] => ([], none)
  | c :: cs =>
    if c = ':' then ([], some cs)
    else
      let r := splitFirst cs
      (c :: r.1, r.2)

def quoteS (s : String) : String := "\"" ++ s ++ "\""

/-- Modelled from the spec: the InvalidNameError message for a malformed identifier. -/
def invalidNameMessage (s : String) : String := "invalid task name " ++ quoteS s

/-- Modelled from the spec: ParseName splits on the action separator, fails when
the resource part is empty, and defaults the action when omitted. -/
def ParseName (s : String) : Except String Name :=
  match splitFirst s.data with
  | (r, none) =>
    if r = [] then .error (invalidNameMessage s)
    else .ok { resource := String.mk r, action := "default" }
  | (r, some a) =>
    if r = [] then .error (invalidNameMessage s)
    else if a = [] then .ok { resource := String.mk r, action := "default" }
    else .ok { resource := String.mk r, action := String.mk a }

/-- Modelled from the spec: element-wise ParseName, failing on the first error. -/
def ParseNames : List String → Except String (List Name)
  | [] => .ok []
  | s :: rest =>
    match ParseName s with
    | .error e => .error e
    | .ok n =>
      match ParseNames rest with
      | .error e => .error e
      | .ok ns => .ok (n :: ns)

/-- A Name whose canonical string form parses back to itself: nonempty colon-free
resource part and nonempty action part.  Every Name produced by ParseName is of
this shape. -/
def WellFormedName (n : Name) : Prop :=
  n.resource.data ≠ [] ∧ ':' ∉ n.resource.data ∧ n.action.data ≠ []

theorem splitFirst_no_colon : ∀ l : List Char, ':' ∉ (splitFirst l).1 := by
  intro l
  induction l with
  | nil => simp [splitFirst]
  | cons c cs ih =>
    intro hmem
    by_cases hc : c = ':'
    · simp [splitFirst, hc] at hmem
    · simp [splitFirst, hc] at hmem
      rcases hmem with h | h
      · exact hc h.symm
      · exact ih h

theorem splitFirst_append (x y : List Char) (hx : ':' ∉ x) :
    splitFirst (x ++ ':' :: y) = (x, some y) := by
  induction x with
  | nil => simp [splitFirst]
  | cons c cs ih =>
    have hc : c ≠ ':' := by
      intro h; exact hx (by simp [h])
    have hcs : ':' ∉ cs := fun h => hx (by simp [h])
    simp [splitFirst, hc, ih hcs]

theorem ParseName_wellFormed {s : String} {n : Name} (h : ParseName s = .ok n) :
    WellFormedName n := by
  unfold ParseName at h
  rcases hsp : splitFirst s.data with ⟨r, o⟩
  rw [hsp] at h
  have hr : ':' ∉ r := by
    have := splitFirst_no_colon s.data
    rw [hsp] at this; exact this
  cases o with
  | none =>
    dsimp only at h
    by_cases h0 : r = []
    · rw [if_pos h0] at h; simp at h
    · rw [if_neg h0] at h
      injection h with h
      subst h
      refine ⟨h0, hr, ?_⟩
      show ("default" : String).data ≠ []
      decide
  | some a =>
    dsimp only at h
    by_cases h0 : r = []
    · rw [if_pos h0] at h; simp at h
    · rw [if_neg h0] at h
      by_cases ha : a = []
      · rw [if_pos ha] at h
        injection h with h
        subst h
        refine ⟨h0, hr, ?_⟩
        show ("default" : String).data ≠ []
        decide
      · rw [if_neg ha] at h
        injection h with h
        subst h
        exact ⟨h0, hr, ha⟩

theorem ParseName_roundtrip {n : Name} (h : WellFormedName n) :
    ParseName n.str = .ok n := by
  obtain ⟨h1, h2, h3⟩ := h
  have hdata : (n.str).data = n.resource.data ++ ':' :: n.action.data := by
    simp [Name.str, String.data_append]
  unfold ParseName
  rw [hdata, splitFirst_append n.resource.data n.action.data h2]
  simp [h1, h3]

theorem ParseNames_wellFormed {l : List String} {ns : List Name}
    (h : ParseNames l = .ok ns) : ∀ n ∈ ns, WellFormedName n := by
  induction l generalizing ns with
  | nil =>
    unfold ParseNames at h
    injection h with h
    rw [← h]
    intro n hn
    exact absurd hn (List.not_mem_nil n)
  | cons s rest ih =>
    unfold ParseNames at h
    rcases hp : ParseName s with e | n0
    · rw [hp] at h; simp at h
    · rw [hp] at h
      rcases hr : ParseNames rest with e | ns0
      · rw [hr] at h; simp at h
      · rw [hr] at h
        simp at h
        rw [← h]
        intro n hn
        rcases List.mem_cons.mp hn with h' | h'
        · rw [h']; exact ParseName_wellFormed hp
        · exact ih hr n h'

/-! ## Resource configuration (src/config/job.go, src/config/env.go)

The Resolver is the external variable-resolution collaborator (the execenv
interface with Resolve and ResolveSlice); its methods return a value together
with an optional error, mirroring the Go (value, error) pairs.
-/

structure Resolver where
  resolve : String → String × Option String
  resolveSlice : List String → List String × Option String

/-- PathGlobs from the config package: a list of file paths or glob patterns. -/
structure PathGlobs where
  globs : List String
deriving DecidableEq

/-- ShlexSlice from src/config/job.go: a string together with its shlex parse. -/
structure ShlexSlice where
  original : String
  parsed : List String
deriving DecidableEq

/-- Device from src/config/job.go. -/
structure Device where
  Host : String
  Container : String
  Permissions : String
deriving DecidableEq

/-- The Annotations embed of config resources: descriptive metadata. -/
structure Annotations where
  description : String
  tags : List String
deriving DecidableEq

/-- JobConfig from src/config/job.go.  The Dependent embed contributes the
Depends field; Labels is a string map represented as an association list. -/
structure JobConfig where
  Use : String
  Artifact : PathGlobs
  Command : ShlexSlice
  Entrypoint : ShlexSlice
  Sources : PathGlobs
  Mounts : List String
  Privileged : Bool
  Interactive : Bool
  Env : List String
  ProvideDocker : Bool
  NetMode : String
  WorkingDir : String
  User : String
  Ports : List String
  Devices : List Device
  Labels : List (String × String)
  Depends : List String
  annotations : Annotations
deriving DecidableEq

/-- EnvConfig from src/config/env.go. -/
structure EnvConfig where
  Files : List String
  Variables : List String
  annotations : Annotations
deriving DecidableEq

/-- JobConfig.Dependencies from src/config/job.go: parse Depends, Mounts and Use;
on success return append(mnts, append(deps, use)...); on the first parse error
return the empty list together with that error. -/
def JobConfig.Dependencies (c : JobConfig) : List Name × Option String :=
  match ParseNames c.Depends with
  | .error e => ([], some e)
  | .ok deps =>
    match ParseNames c.Mounts with
    | .error e => ([], some e)
    | .ok mnts =>
      match ParseName c.Use with
      | .error e => ([], some e)
      | .ok use => (mnts ++ (deps ++ [use]), none)

/-- EnvConfig.Dependencies from src/config/env.go: an env resource has no
dependencies. -/
def EnvConfig.Dependencies (_ : EnvConfig) : List Name × Option String :=
  ([], none)

/-- JobConfig.Resolve from src/config/job.go.  The first component is the value
of the pointer receiver after the call (the method copies the receiver and only
writes to the copy, so it is the unchanged original); the second is the returned
resource copy; the third the returned error.  Each early return hands back the
partially substituted copy together with the error, exactly as the Go code
returns &conf, err on every path. -/
def JobConfig.Resolve (r : Resolver) (c : JobConfig) :
    JobConfig × JobConfig × Option String :=
  match r.resolveSlice c.Env with
  | (env1, some err) => (c, { c with Env := env1 }, some err)
  | (env1, none) =>
    match r.resolve c.WorkingDir with
    | (wd, some err) => (c, { c with Env := env1, WorkingDir := wd }, some err)
    | (wd, none) =>
      match r.resolve c.User with
      | (u, some err) =>
        (c, { c with Env := env1, WorkingDir := wd, User := u }, some err)
      | (u, none) =>
        match r.resolve c.NetMode with
        | (nm, err) =>
          (c, { c with Env := env1, WorkingDir := wd, User := u, NetMode := nm }, err)

/-- EnvConfig.Resolve from src/config/env.go, in the same receiver-threading
shape as JobConfig.Resolve. -/
def EnvConfig.Resolve (r : Resolver) (c : EnvConfig) :
    EnvConfig × EnvConfig × Option String :=
  match r.resolveSlice c.Files with
  | (fs, some err) => (c, { c with Files := fs }, some err)
  | (fs, none) =>
    match r.resolveSlice c.Variables with
    | (vs, err) => (c, { c with Files := fs, Variables := vs }, err)

/-! ## Resource variants

The data model's Resource variant set.  JobConfig and EnvConfig carry the
configurations embedded from src/config; the other variants are not under
src/ and are modelled from the spec as carrying their declared dependency
identifier lists (each variant exposes Dependencies returning a set of Names).
-/

inductive Resource where
  | image (depends : List String)
  | job (c : JobConfig)
  | mount (depends : List String)
  | aliasRes (tasks : List String)
  | env (c : EnvConfig)
  | compose (depends : List String)
  | volume (depends : List String)

/-- Modelled from the spec: the Dependencies of a variant declared through a
plain identifier list is the element-wise parse of that list, in the ([]Name,
error) shape of the Go methods. -/
def parsedDeps (l : List String) : List Name × Option String :=
  match ParseNames l with
  | .error e => ([], some e)
  | .ok ns => (ns, none)

/-- Dependencies of a Resource.  The job and env cases are the src/config
implementations; the remaining variants are modelled from the spec as the
element-wise parse of their declared dependency identifiers. -/
def Resource.Dependencies : Resource → List Name × Option String
  | .job c => c.Dependencies
  | .env c => c.Dependencies
  | .image ds | .mount ds | .aliasRes ds | .compose ds | .volume ds =>
    parsedDeps ds

/-- Resolve of a Resource against the variable environment: the job and env
cases are the src/config implementations (returning the substituted copy and
the error); the remaining variants are modelled from the spec as producing an
unchanged copy, having no variable-bearing fields in this model. -/
def Resource.Resolve (r : Resolver) : Resource → Resource × Option String
  | .job c =>
    match JobConfig.Resolve r c with
    | (_, c2, err) => (.job c2, err)
  | .env c =>
    match EnvConfig.Resolve r c with
    | (_, c2, err) => (.env c2, err)
  | .image ds => (.image ds, none)
  | .mount ds => (.mount ds, none)
  | .aliasRes ds => (.aliasRes ds, none)
  | .compose ds => (.compose ds, none)
  | .volume ds => (.volume ds, none)

/-- The Go dynamic type string of each variant, as printed by the %T verb in
the fatal branch of buildTaskConfig. -/
def Resource.goTypeString : Resource → String
  | .image _ => "*config.ImageConfig"
  | .job _ => "*config.JobConfig"
  | .mount _ => "*config.MountConfig"
  | .aliasRes _ => "*config.AliasConfig"
  | .env _ => "*config.EnvConfig"
  | .compose _ => "*config.ComposeConfig"
  | .volume _ => "*config.VolumeConfig"

def Resource.isVolume : Resource → Bool
  | .volume _ => true
  | _ => false

/-! ## Execution context and engine (src/tasks/tasks.go)

The execution-context package is not under src/; per the spec it is the
per-run mutable state holding the modified-set, the resolved-resource
registry and the variable environment.  IsModified and SetModified are
modelled from the spec as membership in and insertion into the modified set.
The runtime Task two-method contract (run(ctx, depsModified) -> (modified,
error), stop(ctx) -> error) is held opaquely as function fields.
-/

structure ExecuteContext where
  env : Resolver
  resources : List (String × Resource)
  modified : List Name

/-- Modelled from the spec: membership of a Name in the modified set. -/
def IsModified (ctx : ExecuteContext) (n : Name) : Bool :=
  decide (n ∈ ctx.modified)

/-- Modelled from the spec: mark a Name as modified. -/
def SetModified (ctx : ExecuteContext) (n : Name) : ExecuteContext :=
  { ctx with modified := n :: ctx.modified }

/-- An opaque runtime Task (types.Task): its Name, run and stop behaviors. -/
structure EngineTask where
  name : Name
  run : ExecuteContext → Bool → Bool × Option String
  stop : ExecuteContext → Option String

/-- A TaskConfig (types.TaskConfig): its Name, Resource, dependency Name list
and the factory producing the runtime Task from a resolved Resource. -/
structure TaskConfig where
  name : Name
  resource : Resource
  dependencies : List Name
  task : Resource → EngineTask

/-- hasModifiedDeps from src/tasks/tasks.go: true when any dependency Name is
currently marked modified in the context. -/
def hasModifiedDeps (ctx : ExecuteContext) : List Name → Bool
  | [] => false
  | d :: ds => if IsModified ctx d then true else hasModifiedDeps ctx ds

/-- reversed from src/tasks/tasks.go: builds the reversed task list by walking
the input from its last element to its first. -/
def reversed : List EngineTask → List EngineTask
  | [] => []
  | t :: ts => reversed ts ++ [t]

/-- The run-error wrapping of executeTasks: failed to execute task %q: %s. -/
def runErrorMessage (n : Name) (e : String) : String :=
  "failed to execute task " ++ quoteS n.str ++ ": " ++ e

/-- Observable execution events: a run invocation (carrying the task's Name,
the TaskConfig's dependency list, the depsModified argument, the returned
modified flag and the returned error) and a stop invocation. -/
inductive Event where
  | ran (n : Name) (deps : List Name) (depsModified : Bool)
      (modified : Bool) (err : Option String)
  | stopped (n : Name) (err : Option String)
deriving DecidableEq

/-- The state of the executeTasks loop when it exits: the final context, the
startedTasks list, the trace of run invocations, and the run/resolution error
if any. -/
structure LoopResult where
  ctx : ExecuteContext
  started : List EngineTask
  trace : List Event
  err : Option String

/-- Store a resolved Resource in the context's resource registry keyed by
resource name; the new entry shadows (overwrites) any prior entry for lookup. -/
def addResource (ctx : ExecuteContext) (key : String) (res : Resource) : ExecuteContext :=
  { ctx with resources := (key, res) :: ctx.resources }

/-- The main loop of executeTasks (src/tasks/tasks.go lines 143-169): resolve
the Resource (a resolution error is returned as-is), store it in the context's
resource registry, instantiate the Task, record it as started before running
it, run it with hasModifiedDeps, wrap a run error with the task's Name, and on
success mark the Name modified when the task reports modified. -/
def execLoop : List TaskConfig → ExecuteContext → LoopResult
  | [], ctx => ⟨ctx, [], [], none⟩
  | tc :: rest, ctx =>
    match Resource.Resolve ctx.env tc.resource with
    | (_, some e) => ⟨ctx, [], [], some e⟩
    | (res, none) =>
      let ctx1 : ExecuteContext := addResource ctx tc.name.resource res
      let t := tc.task res
      let depsMod := hasModifiedDeps ctx1 tc.dependencies
      match t.run ctx1 depsMod with
      | (modified, some e) =>
        ⟨ctx1, [t], [Event.ran t.name tc.dependencies depsMod modified (some e)],
          some (runErrorMessage t.name e)⟩
      | (modified, none) =>
        let ctx2 := if modified then SetModified ctx1 t.name else ctx1
        let r := execLoop rest ctx2
        ⟨r.ctx, t :: r.started,
          Event.ran t.name tc.dependencies depsMod modified none :: r.trace, r.err⟩

/-- The deferred cleanup of executeTasks: invoke stop on each task (the list is
already reversed by the caller); a stop failure is only warned about and never
interrupts the remaining stops. -/
def stopEventsOf (ctx : ExecuteContext) : List EngineTask → List Event
  | [] => []
  | t :: ts => Event.stopped t.name (t.stop ctx) :: stopEventsOf ctx ts

/-- The observable outcome of executeTasks: the final context, the run-phase
events, the cleanup events (the deferred stop loop), and the returned error. -/
structure ExecResult where
  ctx : ExecuteContext
  runEvents : List Event
  stopEvents : List Event
  err : Option String

/-- executeTasks from src/tasks/tasks.go: run the loop, then (via defer, hence
on every exit path) stop every started task in reverse start order. -/
def executeTasks (cfgs : List TaskConfig) (ctx : ExecuteContext) : ExecResult :=
  let r := execLoop cfgs ctx
  ⟨r.ctx, r.trace, stopEventsOf r.ctx (reversed r.started), r.err⟩

/-- The Names of the run invocations of a trace, in order. -/
def ranNames (l : List Event) : List Name :=
  l.filterMap fun ev =>
    match ev with
    | .ran n _ _ _ _ => some n
    | .stopped _ _ => none

/-- The Names of the stop invocations of a trace, in order. -/
def stoppedNames (l : List Event) : List Name :=
  l.filterMap fun ev =>
    match ev with
    | .ran _ _ _ _ _ => none
    | .stopped n _ => some n

/-! ## Dependency collector (src/tasks/tasks.go lines 24-120) -/

/-- TaskCollection from src/tasks/tasks.go: an ordered sequence of TaskConfig. -/
structure TaskCollection where
  tasks : List TaskConfig

/-- TaskCollection.add: append a TaskConfig. -/
def TaskCollection.add (c : TaskCollection) (tc : TaskConfig) : TaskCollection :=
  ⟨c.tasks ++ [tc]⟩

/-- TaskCollection.All: all the tasks in dependency order. -/
def TaskCollection.All (c : TaskCollection) : List TaskConfig :=
  c.tasks

/-- TaskCollection.Get: the first TaskConfig whose Name equals the given one. -/
def TaskCollection.Get (c : TaskCollection) (n : Name) : Option TaskConfig :=
  c.tasks.find? fun tc => tc.name = n

/-- Modelled from the spec: the active-path Stack of Names from the task-name
package; pushed Names are appended at the end so Names returns the active path
in encounter order. -/
def stackContains : List Name → Name → Bool
  | [], _ => false
  | m :: ms, n => if m = n then true else stackContains ms n

def stackPush (st : List Name) (n : Name) : List Name := st ++ [n]

def stackPop (st : List Name) : List Name := st.dropLast

def stackNames (st : List Name) : List String := st.map Name.str

/-- The Go strings.Join(names, ", ") used by the cycle error. -/
def joinComma : List String → String
  | [] => ""
  | [x] => x
  | x :: rest => x ++ ", " ++ joinComma rest

/-- The cycle error of collect: Invalid dependency cycle: path. -/
def cycleMessage (path : List String) : String :=
  "Invalid dependency cycle: " ++ joinComma path

/-- The unknown-resource error of collect: resource %q does not exist. -/
def unknownResourceMessage (r : String) : String :=
  "resource " ++ quoteS r ++ " does not exist"

/-- collectionState from src/tasks/tasks.go: the shared result collection and
the active-path stack. -/
structure CollectionState where
  tasks : TaskCollection
  taskStack : List Name

def emptyCollectionState : CollectionState := ⟨⟨[]⟩, []⟩

/-- Errors escaping collection: an ordinary error value, a Go panic (the fatal
branch of buildTaskConfig), or exhaustion of the recursion fuel that makes the
embedded recursion structural (the Go code recurses unboundedly and relies on
the cycle check for termination). -/
inductive CErr where
  | failure (msg : String)
  | panicked (msg : String)
  | outOfFuel
deriving DecidableEq

/-- The outcome of buildTaskConfig: a TaskConfig, a recoverable error, or the
fatal (panic) branch. -/
inductive BuildResult where
  | ok (tc : TaskConfig)
  | failed (msg : String)
  | fatal (msg : String)

def BuildResult.isFatal : BuildResult → Bool
  | .fatal _ => true
  | _ => false

/-- Modelled from the spec: the per-kind GetTaskConfig constructors (the
tasks/image, tasks/job, ... packages) are not under src/.  Per the spec's data
model a TaskConfig binds the Name to its Resource and its dependency Name
list, plus the factory producing the runtime Task; a dependency-list error is
returned as the constructor's error.  The family of runtime-task factories is
a parameter, the per-kind execution logic being out of scope. -/
def GetTaskConfig (taskFor : Name → Resource → EngineTask) (n : Name)
    (res : Resource) : Except String TaskConfig :=
  match res.Dependencies with
  | (_, some e) => .error e
  | (deps, none) => .ok ⟨n, res, deps, fun r => taskFor n r⟩

def buildOf : Except String TaskConfig → BuildResult
  | .ok tc => .ok tc
  | .error e => .failed e

/-- buildTaskConfig from src/tasks/tasks.go: the closed dispatch on the dynamic
type of the Resource.  The switch has cases for image, job, mount, alias, env
and compose only; every other variant (in this model: volume) falls into the
default branch, which panics with the Unexpected config type message. -/
def buildTaskConfig (taskFor : Name → Resource → EngineTask) (n : Name)
    (res : Resource) : BuildResult :=
  match res with
  | .image _ => buildOf (GetTaskConfig taskFor n res)
  | .job _ => buildOf (GetTaskConfig taskFor n res)
  | .mount _ => buildOf (GetTaskConfig taskFor n res)
  | .aliasRes _ => buildOf (GetTaskConfig taskFor n res)
  | .env _ => buildOf (GetTaskConfig taskFor n res)
  | .compose _ => buildOf (GetTaskConfig taskFor n res)
  | .volume _ => .fatal ("Unexpected config type " ++ res.goTypeString)

/-- The resource registry and run options of the collector: Resources maps a
resource identifier to its Resource; metaDefault is the configured default
task identifier of the config's meta section. -/
structure Config where
  resources : List (String × Resource)
  metaDefault : String

def lookupResource (rs : List (String × Resource)) (key : String) : Option Resource :=
  match rs.find? (fun p => p.1 = key) with
  | some p => some p.2
  | none => none

/-- collect from src/tasks/tasks.go lines 64-100: for each requested identifier
parse it, look its Resource up (failing with the unknown-resource error), build
its TaskConfig, fail with the cycle error when its Name is already on the
active-path stack, otherwise push it, recurse into the canonical string forms
of its dependency Names, append the TaskConfig to the result after the
recursion returns, pop, and continue with the remaining identifiers.  The Nat
fuel makes the recursion structural; each nested call consumes one unit and a
run that exhausts it reports CErr.outOfFuel (unreachable for sufficient fuel). -/
def collect (taskFor : Name → Resource → EngineTask) (cfg : Config) :
    Nat → List String → CollectionState → Except CErr CollectionState
  | 0, _, _ => .error .outOfFuel
  | _ + 1, [], st => .ok st
  | fuel + 1, s :: rest, st =>
    match ParseName s with
    | .error e => .error (.failure e)
    | .ok n =>
      match lookupResource cfg.resources n.resource with
      | none => .error (.failure (unknownResourceMessage n.resource))
      | some res =>
        match buildTaskConfig taskFor n res with
        | .failed e => .error (.failure e)
        | .fatal m => .error (.panicked m)
        | .ok tc =>
          if stackContains st.taskStack tc.name then
            .error (.failure (cycleMessage (stackNames st.taskStack)))
          else
            match collect taskFor cfg fuel (tc.dependencies.map Name.str)
                { st with taskStack := stackPush st.taskStack tc.name } with
            | .error e => .error e
            | .ok st2 =>
              collect taskFor cfg fuel rest
                ⟨st2.tasks.add tc, stackPop st2.taskStack⟩

/-- collectTasks from src/tasks/tasks.go: run collect from the empty state and
return the TaskCollection. -/
def collectTasks (taskFor : Name → Resource → EngineTask) (cfg : Config)
    (fuel : Nat) (req : List String) : Except CErr TaskCollection :=
  (collect taskFor cfg fuel req emptyCollectionState).map CollectionState.tasks

/-- The Name sequence of a collected TaskCollection. -/
def collectNames (taskFor : Name → Resource → EngineTask) (cfg : Config)
    (fuel : Nat) (req : List String) : Except CErr (List Name) :=
  (collectTasks taskFor cfg fuel req).map fun c => c.All.map TaskConfig.name

/-- The observable outcome of Run. -/
structure RunResult where
  runEvents : List Event
  stopEvents : List Event
  error : Option CErr

/-- Run from src/tasks/tasks.go lines 192-220: substitute the configured
default identifier when no task is requested (failing when none is
configured), collect, then execute against a fresh ExecuteContext.  The
construction of the execution environment is external; the Resolver parameter
stands for it. -/
def Run (taskFor : Name → Resource → EngineTask) (resolver : Resolver)
    (fuel : Nat) (cfg : Config) (req : List String) : RunResult :=
  match req, cfg.metaDefault with
  | [], "" => ⟨[], [], some (.failure "no task to run, and no default task defined")⟩
  | _, _ =>
    let req2 := if req.isEmpty then [cfg.metaDefault] else req
    match collectTasks taskFor cfg fuel req2 with
    | .error e => ⟨[], [], some e⟩
    | .ok col =>
      let res := executeTasks col.All ⟨resolver, [], []⟩
      ⟨res.runEvents, res.stopEvents, res.err.map .failure⟩

/-! ## Statement vocabulary and concrete fixtures -/

/-- A message names an identifier when the identifier occurs verbatim in it. -/
def Mentions (msg ident : String) : Prop :=
  ∃ a b, msg = a ++ ident ++ b

/-- Some TaskConfig of the list carries the given Name. -/
def NamedIn (l : List TaskConfig) (d : Name) : Prop :=
  ∃ tc ∈ l, tc.name = d

/-- A TaskConfig sequence is dependency-first: every Name a TaskConfig depends
on is the Name of a TaskConfig strictly earlier in the sequence. -/
def DepFirstTC (l : List TaskConfig) : Prop :=
  ∀ pre tc post, l = pre ++ tc :: post → ∀ d ∈ tc.dependencies, NamedIn pre d

def mkTask (n : Name) (res : Bool × Option String) : EngineTask :=
  ⟨n, fun _ _ => res, fun _ => none⟩

/-- A runtime-task family whose tasks do nothing: run reports unmodified
success and stop succeeds. -/
def trivialTaskFor (n : Name) (_ : Resource) : EngineTask :=
  mkTask n (false, none)

/-- A resolver that substitutes every variable to itself and never fails. -/
def idResolver : Resolver :=
  ⟨fun s => (s, none), fun l => (l, none)⟩

/-- A resolver whose slice resolution always fails with the bare message boom. -/
def boomResolver : Resolver :=
  ⟨fun s => (s, none), fun l => (l, some "boom")⟩

def noAnnotations : Annotations := ⟨"", []⟩

def emptyEnvConfig : EnvConfig := ⟨[], [], noAnnotations⟩

def envRes : Resource := .env emptyEnvConfig

def nameA : Name := ⟨"A", "default"⟩
def nameB : Name := ⟨"B", "default"⟩
def nameC : Name := ⟨"C", "default"⟩
def nameD : Name := ⟨"D", "default"⟩
def nameX : Name := ⟨"X", "default"⟩
def nameY : Name := ⟨"Y", "default"⟩
def nameV : Name := ⟨"vol", "default"⟩
def nameM : Name := ⟨"mytask", "default"⟩

/-- The diamond registry: A depends on B and C, both of which depend on D. -/
def diamondConfig : Config :=
  ⟨[("A", .aliasRes ["B", "C"]), ("B", .aliasRes ["D"]),
    ("C", .aliasRes ["D"]), ("D", envRes)], ""⟩

/-- The two-cycle registry: A depends on B and B depends on A. -/
def cycleConfig : Config :=
  ⟨[("A", .aliasRes ["B"]), ("B", .aliasRes ["A"])], ""⟩

/-- The collection produced for the diamond request. -/
def diamondCollection : TaskCollection :=
  match collectTasks trivialTaskFor diamondConfig 10 ["A"] with
  | .ok c => c
  | .error _ => ⟨[]⟩

def tcRunOk (n : Name) : TaskConfig :=
  ⟨n, envRes, [], fun _ => mkTask n (false, none)⟩

def tcRunFail (n : Name) : TaskConfig :=
  ⟨n, envRes, [], fun _ => mkTask n (false, some "boom")⟩

def freshCtx (r : Resolver) : ExecuteContext := ⟨r, [], []⟩

/-- Ordered tasks A, B, C where B's run fails. -/
def demoABC : List TaskConfig := [tcRunOk nameA, tcRunFail nameB, tcRunOk nameC]

/-- A single task whose resource resolution fails with the bare message boom. -/
def tcMytask : TaskConfig :=
  ⟨nameM, envRes, [], fun _ => mkTask nameM (false, none)⟩

/-- X completes with modified true; Y depends on X. -/
def tcX : TaskConfig := ⟨nameX, envRes, [], fun _ => mkTask nameX (true, none)⟩
def tcY : TaskConfig := ⟨nameY, envRes, [nameX], fun _ => mkTask nameY (false, none)⟩

def sampleJob : JobConfig :=
  ⟨"img", ⟨[]⟩, ⟨"", []⟩, ⟨"", []⟩, ⟨[]⟩, ["m1"], false, false,
    ["E=1"], false, "net", "wd", "usr", [], [], [], ["d1"], noAnnotations⟩

/-- The JobConfig fields that Resolve never substitutes. -/
def jobUntouchedFields (a b : JobConfig) : Prop :=
  a.Use = b.Use ∧ a.Artifact = b.Artifact ∧ a.Command = b.Command ∧
  a.Entrypoint = b.Entrypoint ∧ a.Sources = b.Sources ∧ a.Mounts = b.Mounts ∧
  a.Privileged = b.Privileged ∧ a.Interactive = b.Interactive ∧
  a.ProvideDocker = b.ProvideDocker ∧ a.Ports = b.Ports ∧ a.Devices = b.Devices ∧
  a.Labels = b.Labels ∧ a.Depends = b.Depends ∧ a.annotations = b.annotations

/-! ## Engine lemmas -/

theorem addResource_env (ctx : ExecuteContext) (k : String) (r : Resource) :
    (addResource ctx k r).env = ctx.env := rfl

theorem addResource_modified (ctx : ExecuteContext) (k : String) (r : Resource) :
    (addResource ctx k r).modified = ctx.modified := rfl

theorem execLoop_nil (ctx : ExecuteContext) : execLoop [] ctx = ⟨ctx, [], [], none⟩ :=
  rfl

theorem execLoop_cons_resolveErr {ctx : ExecuteContext} {tc : TaskConfig}
    {res : Resource} {e : String} (rest : List TaskConfig)
    (h : Resource.Resolve ctx.env tc.resource = (res, some e)) :
    execLoop (tc :: rest) ctx = ⟨ctx, [], [], some e⟩ := by
  simp [execLoop, h]

theorem execLoop_cons_runErr {ctx : ExecuteContext} {tc : TaskConfig}
    {res : Resource} {mo : Bool} {e : String} (rest : List TaskConfig)
    (hres : Resource.Resolve ctx.env tc.resource = (res, none))
    (hrun : (tc.task res).run (addResource ctx tc.name.resource res)
        (hasModifiedDeps (addResource ctx tc.name.resource res) tc.dependencies)
        = (mo, some e)) :
    execLoop (tc :: rest) ctx =
      ⟨addResource ctx tc.name.resource res, [tc.task res],
        [Event.ran (tc.task res).name tc.dependencies
          (hasModifiedDeps (addResource ctx tc.name.resource res) tc.dependencies)
          mo (some e)],
        some (runErrorMessage (tc.task res).name e)⟩ := by
  simp [execLoop, hres, hrun]

theorem execLoop_cons_ok {ctx : ExecuteContext} {tc : TaskConfig}
    {res : Resource} {mo : Bool} (rest : List TaskConfig)
    (hres : Resource.Resolve ctx.env tc.resource = (res, none))
    (hrun : (tc.task res).run (addResource ctx tc.name.resource res)
        (hasModifiedDeps (addResource ctx tc.name.resource res) tc.dependencies)
        = (mo, none)) :
    execLoop (tc :: rest) ctx =
      ⟨(execLoop rest (if mo then SetModified (addResource ctx tc.name.resource res)
            (tc.task res).name else addResource ctx tc.name.resource res)).ctx,
        tc.task res :: (execLoop rest (if mo then
            SetModified (addResource ctx tc.name.resource res) (tc.task res).name
          else addResource ctx tc.name.resource res)).started,
        Event.ran (tc.task res).name tc.dependencies
          (hasModifiedDeps (addResource ctx tc.name.resource res) tc.dependencies)
          mo none ::
          (execLoop rest (if mo then SetModified (addResource ctx tc.name.resource res)
            (tc.task res).name else addResource ctx tc.name.resource res)).trace,
        (execLoop rest (if mo then SetModified (addResource ctx tc.name.resource res)
          (tc.task res).name else addResource ctx tc.name.resource res)).err⟩ := by
  simp [execLoop, hres, hrun]

theorem hasModifiedDeps_iff (ctx : ExecuteContext) :
    ∀ l, hasModifiedDeps ctx l = true ↔ ∃ d ∈ l, d ∈ ctx.modified := by
  intro l
  induction l with
  | nil => simp [hasModifiedDeps]
  | cons d ds ih =>
    by_cases hd : d ∈ ctx.modified
    · simp [hasModifiedDeps, IsModified, hd]
    · simp [hasModifiedDeps, IsModified, hd, ih]

theorem reversed_eq_reverse : ∀ l : List EngineTask, reversed l = l.reverse := by
  intro l
  induction l with
  | nil => rfl
  | cons t ts ih => simp [reversed, ih]

theorem stoppedNames_stopEventsOf (ctx : ExecuteContext) :
    ∀ l : List EngineTask, stoppedNames (stopEventsOf ctx l) = l.map EngineTask.name := by
  intro l
  induction l with
  | nil => rfl
  | cons t ts ih => simp [stopEventsOf, stoppedNames, List.filterMap_cons] at ih ⊢; exact ih

theorem execLoop_started_names :
    ∀ (cfgs : List TaskConfig) (ctx : ExecuteContext),
      (execLoop cfgs ctx).started.map EngineTask.name = ranNames (execLoop cfgs ctx).trace := by
  intro cfgs
  induction cfgs with
  | nil => intro ctx; rfl
  | cons tc rest ih =>
    intro ctx
    rcases hres : Resource.Resolve ctx.env tc.resource with ⟨res, oe⟩
    cases oe with
    | some e => rw [execLoop_cons_resolveErr rest hres]; rfl
    | none =>
      rcases hrun : (tc.task res).run (addResource ctx tc.name.resource res)
          (hasModifiedDeps (addResource ctx tc.name.resource res) tc.dependencies)
          with ⟨mo, oe2⟩
      cases oe2 with
      | some e => rw [execLoop_cons_runErr rest hres hrun]; rfl
      | none =>
        rw [execLoop_cons_ok rest hres hrun]
        simp [ranNames, List.filterMap_cons] at ih ⊢
        exact ih _

theorem mem_modified_step_true (tname : Name) (tdeps : List Name) (tdm : Bool)
    (tl : List Event) (M : List Name) (n : Name) :
    (n ∈ tname :: M ∨ ∃ ds dm, Event.ran n ds dm true none ∈ tl) ↔
      (n ∈ M ∨ ∃ ds dm,
        Event.ran n ds dm true none ∈ Event.ran tname tdeps tdm true none :: tl) := by
  constructor
  · rintro (h | ⟨ds, dm, hmem⟩)
    · rcases List.mem_cons.mp h with h | h
      · right
        refine ⟨tdeps, tdm, ?_⟩
        rw [h]
        exact List.mem_cons_self _ _
      · left; exact h
    · right; exact ⟨ds, dm, List.mem_cons_of_mem _ hmem⟩
  · rintro (h | ⟨ds, dm, hmem⟩)
    · left; exact List.mem_cons_of_mem _ h
    · rcases List.mem_cons.mp hmem with heq | hmem2
      · left
        have hn : n = tname := by
          injection heq
        rw [hn]
        exact List.mem_cons_self _ _
      · right; exact ⟨ds, dm, hmem2⟩

theorem mem_modified_step_false (tname : Name) (tdeps : List Name) (tdm : Bool)
    (tl : List Event) (M : List Name) (n : Name) :
    (n ∈ M ∨ ∃ ds dm, Event.ran n ds dm true none ∈ tl) ↔
      (n ∈ M ∨ ∃ ds dm,
        Event.ran n ds dm true none ∈ Event.ran tname tdeps tdm false none :: tl) := by
  constructor
  · rintro (h | ⟨ds, dm, hmem⟩)
    · left; exact h
    · right; exact ⟨ds, dm, List.mem_cons_of_mem _ hmem⟩
  · rintro (h | ⟨ds, dm, hmem⟩)
    · left; exact h
    · rcases List.mem_cons.mp hmem with heq | hmem2
      · exfalso
        have : (true : Bool) = false := by
          injection heq with h1 h2 h3 h4 h5
        simp at this
      · right; exact ⟨ds, dm, hmem2⟩

theorem execLoop_modified_iff :
    ∀ (cfgs : List TaskConfig) (ctx : ExecuteContext) (n : Name),
      n ∈ (execLoop cfgs ctx).ctx.modified ↔
        n ∈ ctx.modified ∨
          ∃ ds dm, Event.ran n ds dm true none ∈ (execLoop cfgs ctx).trace := by
  intro cfgs
  induction cfgs with
  | nil => intro ctx n; simp [execLoop_nil]
  | cons tc rest ih =>
    intro ctx n
    rcases hres : Resource.Resolve ctx.env tc.resource with ⟨res, oe⟩
    cases oe with
    | some e => rw [execLoop_cons_resolveErr rest hres]; simp
    | none =>
      rcases hrun : (tc.task res).run (addResource ctx tc.name.resource res)
          (hasModifiedDeps (addResource ctx tc.name.resource res) tc.dependencies)
          with ⟨mo, oe2⟩
      cases oe2 with
      | some e =>
        rw [execLoop_cons_runErr rest hres hrun]
        simp [addResource, Event.ran.injEq]
      | none =>
        rw [execLoop_cons_ok rest hres hrun]
        dsimp only
        rw [ih]
        cases mo with
        | false =>
          exact mem_modified_step_false (tc.task res).name tc.dependencies
            (hasModifiedDeps (addResource ctx tc.name.resource res) tc.dependencies)
            (execLoop rest (addResource ctx tc.name.resource res)).trace
            ctx.modified n
        | true =>
          exact mem_modified_step_true (tc.task res).name tc.dependencies
            (hasModifiedDeps (addResource ctx tc.name.resource res) tc.dependencies)
            (execLoop rest (SetModified (addResource ctx tc.name.resource res)
              (tc.task res).name)).trace
            ctx.modified n

theorem execLoop_run_error :
    ∀ (cfgs : List TaskConfig) (ctx : ExecuteContext) (n : Name) (ds : List Name)
      (dm mo : Bool) (e : String),
      Event.ran n ds dm mo (some e) ∈ (execLoop cfgs ctx).trace →
      (execLoop cfgs ctx).err = some (runErrorMessage n e) := by
  intro cfgs
  induction cfgs with
  | nil => intro ctx n ds dm mo e h; simp [execLoop_nil] at h
  | cons tc rest ih =>
    intro ctx n ds dm mo e h
    rcases hres : Resource.Resolve ctx.env tc.resource with ⟨res, oe⟩
    cases oe with
    | some e2 =>
      rw [execLoop_cons_resolveErr rest hres] at h
      simp at h
    | none =>
      rcases hrun : (tc.task res).run (addResource ctx tc.name.resource res)
          (hasModifiedDeps (addResource ctx tc.name.resource res) tc.dependencies)
          with ⟨mo0, oe2⟩
      cases oe2 with
      | some e2 =>
        rw [execLoop_cons_runErr rest hres hrun] at h ⊢
        dsimp only at h ⊢
        simp [Event.ran.injEq] at h
        obtain ⟨hn, hds, hdm, hmo, he⟩ := h
        rw [hn, he]
      | none =>
        rw [execLoop_cons_ok rest hres hrun] at h ⊢
        dsimp only at h ⊢
        rcases List.mem_cons.mp h with hh | hh
        · simp [Event.ran.injEq] at hh
        · exact ih _ n ds dm mo e hh

theorem execLoop_depsModified :
    ∀ (cfgs : List TaskConfig) (ctx : ExecuteContext) (pre : List Event) (n : Name)
      (ds : List Name) (dm mo : Bool) (er : Option String) (post : List Event),
      (execLoop cfgs ctx).trace = pre ++ Event.ran n ds dm mo er :: post →
      (dm = true ↔ ∃ d ∈ ds, d ∈ ctx.modified ∨
        ∃ dsX dX, Event.ran d dsX dX true none ∈ pre) := by
  intro cfgs
  induction cfgs with
  | nil =>
    intro ctx pre n ds dm mo er post h
    rw [execLoop_nil] at h
    have hl := congrArg List.length h
    simp only [List.length_nil, List.length_append, List.length_cons] at hl
    omega
  | cons tc rest ih =>
    intro ctx pre n ds dm mo er post h
    rcases hres : Resource.Resolve ctx.env tc.resource with ⟨res, oe⟩
    cases oe with
    | some e =>
      rw [execLoop_cons_resolveErr rest hres] at h
      have hl := congrArg List.length h
      simp only [List.length_nil, List.length_append, List.length_cons] at hl
      omega
    | none =>
      rcases hrun : (tc.task res).run (addResource ctx tc.name.resource res)
          (hasModifiedDeps (addResource ctx tc.name.resource res) tc.dependencies)
          with ⟨mo0, oe2⟩
      cases oe2 with
      | some e =>
        rw [execLoop_cons_runErr rest hres hrun] at h
        dsimp only at h
        cases pre with
        | nil =>
          rw [List.nil_append] at h
          have hev := (List.cons.injEq _ _ _ _).mp h |>.1
          injection hev with hn hds hdm hmo her
          rw [← hdm, ← hds]
          rw [hasModifiedDeps_iff]
          refine exists_congr fun d => and_congr_right fun _ => ?_
          simp [addResource]
        | cons y pre2 =>
          have hl := congrArg List.length h
          simp only [List.length_cons, List.length_append, List.length_nil] at hl
          omega
      | none =>
        rw [execLoop_cons_ok rest hres hrun] at h
        dsimp only at h
        cases pre with
        | nil =>
          rw [List.nil_append] at h
          have hev := (List.cons.injEq _ _ _ _).mp h |>.1
          injection hev with hn hds hdm hmo her
          rw [← hdm, ← hds]
          rw [hasModifiedDeps_iff]
          refine exists_congr fun d => and_congr_right fun _ => ?_
          simp [addResource]
        | cons y pre2 =>
          rw [List.cons_append] at h
          have hy := (List.cons.injEq _ _ _ _).mp h |>.1
          have htl := (List.cons.injEq _ _ _ _).mp h |>.2
          have H := ih _ pre2 n ds dm mo er post htl
          rw [H, ← hy]
          cases mo0 with
          | false =>
            exact exists_congr fun d => and_congr_right fun _ =>
              mem_modified_step_false (tc.task res).name tc.dependencies
                (hasModifiedDeps (addResource ctx tc.name.resource res) tc.dependencies)
                pre2 ctx.modified d
          | true =>
            exact exists_congr fun d => and_congr_right fun _ =>
              mem_modified_step_true (tc.task res).name tc.dependencies
                (hasModifiedDeps (addResource ctx tc.name.resource res) tc.dependencies)
                pre2 ctx.modified d

/-! ## Collector lemmas -/

theorem parsedDeps_wellFormed {l : List String} {deps : List Name}
    (h : parsedDeps l = (deps, none)) : ∀ d ∈ deps, WellFormedName d := by
  unfold parsedDeps at h
  rcases hp : ParseNames l with e | ns
  · rw [hp] at h
    have := congrArg Prod.snd h
    simp at this
  · rw [hp] at h
    have h1 : ns = deps := congrArg Prod.fst h
    rw [← h1]
    exact ParseNames_wellFormed hp

theorem jobDependencies_wellFormed {c : JobConfig} {deps : List Name}
    (h : c.Dependencies = (deps, none)) : ∀ d ∈ deps, WellFormedName d := by
  unfold JobConfig.Dependencies at h
  rcases h1 : ParseNames c.Depends with e | ds
  · rw [h1] at h
    have := congrArg Prod.snd h
    simp at this
  · rw [h1] at h
    rcases h2 : ParseNames c.Mounts with e | ms
    · rw [h2] at h
      have := congrArg Prod.snd h
      simp at this
    · rw [h2] at h
      rcases h3 : ParseName c.Use with e | u
      · rw [h3] at h
        have := congrArg Prod.snd h
        simp at this
      · rw [h3] at h
        have h4 : ms ++ (ds ++ [u]) = deps := congrArg Prod.fst h
        intro d hd
        rw [← h4] at hd
        rcases List.mem_append.mp hd with hm | hm
        · exact ParseNames_wellFormed h2 d hm
        · rcases List.mem_append.mp hm with hm2 | hm2
          · exact ParseNames_wellFormed h1 d hm2
          · have : d = u := by simpa using hm2
            rw [this]
            exact ParseName_wellFormed h3

theorem resourceDependencies_wellFormed {res : Resource} {deps : List Name}
    (h : res.Dependencies = (deps, none)) : ∀ d ∈ deps, WellFormedName d := by
  cases res with
  | job c => exact jobDependencies_wellFormed h
  | env c =>
    have h1 : ([] : List Name) = deps := congrArg Prod.fst h
    rw [← h1]
    intro d hd
    exact absurd hd (List.not_mem_nil d)
  | image ds => exact parsedDeps_wellFormed h
  | mount ds => exact parsedDeps_wellFormed h
  | aliasRes ds => exact parsedDeps_wellFormed h
  | compose ds => exact parsedDeps_wellFormed h
  | volume ds => exact parsedDeps_wellFormed h

theorem GetTaskConfig_ok {tf : Name → Resource → EngineTask} {n : Name}
    {res : Resource} {tc : TaskConfig} (h : GetTaskConfig tf n res = .ok tc) :
    tc.name = n ∧ ∀ d ∈ tc.dependencies, WellFormedName d := by
  unfold GetTaskConfig at h
  rcases hd : res.Dependencies with ⟨deps, oe⟩
  rw [hd] at h
  cases oe with
  | some e => simp at h
  | none =>
    injection h with h
    rw [← h]
    exact ⟨rfl, resourceDependencies_wellFormed hd⟩

theorem buildOf_ok {x : Except String TaskConfig} {tc : TaskConfig}
    (h : buildOf x = .ok tc) : x = .ok tc := by
  cases x with
  | error e => simp [buildOf] at h
  | ok tc2 =>
    simp [buildOf] at h
    rw [h]

theorem buildTaskConfig_ok {tf : Name → Resource → EngineTask} {n : Name}
    {res : Resource} {tc : TaskConfig} (h : buildTaskConfig tf n res = .ok tc) :
    tc.name = n ∧ ∀ d ∈ tc.dependencies, WellFormedName d := by
  cases res with
  | image ds =>
    exact GetTaskConfig_ok (buildOf_ok
      (show buildOf (GetTaskConfig tf n (.image ds)) = .ok tc from h))
  | job c =>
    exact GetTaskConfig_ok (buildOf_ok
      (show buildOf (GetTaskConfig tf n (.job c)) = .ok tc from h))
  | mount ds =>
    exact GetTaskConfig_ok (buildOf_ok
      (show buildOf (GetTaskConfig tf n (.mount ds)) = .ok tc from h))
  | aliasRes ds =>
    exact GetTaskConfig_ok (buildOf_ok
      (show buildOf (GetTaskConfig tf n (.aliasRes ds)) = .ok tc from h))
  | env c =>
    exact GetTaskConfig_ok (buildOf_ok
      (show buildOf (GetTaskConfig tf n (.env c)) = .ok tc from h))
  | compose ds =>
    exact GetTaskConfig_ok (buildOf_ok
      (show buildOf (GetTaskConfig tf n (.compose ds)) = .ok tc from h))
  | volume ds => simp [buildTaskConfig] at h

theorem DepFirstTC_nil : DepFirstTC [] := by
  intro pre tc post h d hd
  have hl := congrArg List.length h
  simp only [List.length_nil, List.length_append, List.length_cons] at hl
  omega

theorem DepFirstTC_snoc {l : List TaskConfig} {tc : TaskConfig}
    (h1 : DepFirstTC l) (h2 : ∀ d ∈ tc.dependencies, NamedIn l d) :
    DepFirstTC (l ++ [tc]) := by
  intro pre x post heq d hd
  rcases List.append_eq_append_iff.mp heq with ⟨a, hpre, hta⟩ | ⟨c, hl, hc⟩
  · cases a with
    | nil =>
      simp at hta
      obtain ⟨hx, hpost⟩ := hta
      rw [hpre, List.append_nil]
      subst hx
      exact h2 d hd
    | cons b bs =>
      have hlen := congrArg List.length hta
      simp only [List.length_cons, List.length_append, List.length_nil] at hlen
      omega
  · cases c with
    | nil =>
      simp at hc
      obtain ⟨hx, hpost⟩ := hc
      rw [List.append_nil] at hl
      rw [← hl]
      subst hx
      exact h2 d hd
    | cons y c2 =>
      simp at hc
      obtain ⟨hx, hpost⟩ := hc
      rw [← hx] at hl
      exact h1 pre x c2 hl d hd

theorem NamedIn_mono {l l2 : List TaskConfig} {d : Name} (h : NamedIn l d) :
    NamedIn (l ++ l2) d := by
  obtain ⟨tc, hm, hn⟩ := h
  exact ⟨tc, List.mem_append_left l2 hm, hn⟩

theorem mentions_parts (a x b : String) : Mentions (a ++ x ++ b) x :=
  ⟨a, b, rfl⟩

theorem mentions_self (x : String) : Mentions x x := by
  refine ⟨"", "", ?_⟩
  simp

theorem joinComma_mentions : ∀ (l : List String) (x : String), x ∈ l →
    Mentions (joinComma l) x := by
  intro l
  induction l with
  | nil => intro x hx; exact absurd hx (List.not_mem_nil x)
  | cons y rest ih =>
    intro x hx
    cases rest with
    | nil =>
      have : x = y := by simpa using hx
      rw [this]
      exact mentions_self y
    | cons z rest2 =>
      rcases List.mem_cons.mp hx with h | h
      · rw [h]
        refine ⟨"", ", " ++ joinComma (z :: rest2), ?_⟩
        show y ++ ", " ++ joinComma (z :: rest2) = "" ++ y ++ (", " ++ joinComma (z :: rest2))
        simp [String.append_assoc]
      · obtain ⟨a, b, hab⟩ := ih x h
        refine ⟨y ++ ", " ++ a, b, ?_⟩
        show y ++ ", " ++ joinComma (z :: rest2) = y ++ ", " ++ a ++ x ++ b
        rw [hab]
        simp [String.append_assoc]

theorem TaskCollection.add_All (c : TaskCollection) (tc : TaskConfig) :
    (c.add tc).All = c.All ++ [tc] := rfl

theorem collect_inv (tf : Name → Resource → EngineTask) (cfg : Config) :
    ∀ (fuel : Nat) (names : List String) (st st' : CollectionState),
      collect tf cfg fuel names st = .ok st' →
      (∃ added, st'.tasks.All = st.tasks.All ++ added) ∧
      (∀ s ∈ names, ∃ n, ParseName s = .ok n ∧ NamedIn st'.tasks.All n) ∧
      (DepFirstTC st.tasks.All → DepFirstTC st'.tasks.All) := by
  intro fuel
  induction fuel with
  | zero =>
    intro names st st' h
    simp [collect] at h
  | succ fuel ih =>
    intro names st st' h
    cases names with
    | nil =>
      simp only [collect] at h
      injection h with h
      subst h
      refine ⟨⟨[], by simp⟩, ?_, fun hDF => hDF⟩
      intro s hs
      exact absurd hs (List.not_mem_nil s)
    | cons s rest =>
      simp only [collect] at h
      rcases hp : ParseName s with e | n
      · rw [hp] at h; dsimp only at h; simp at h
      · rw [hp] at h; dsimp only at h
        rcases hl : lookupResource cfg.resources n.resource with _ | res
        · rw [hl] at h; dsimp only at h; simp at h
        · rw [hl] at h; dsimp only at h
          rcases hb : buildTaskConfig tf n res with tc | e | m
          · rw [hb] at h; dsimp only at h
            by_cases hs : stackContains st.taskStack tc.name = true
            · rw [if_pos hs] at h; simp at h
            · rw [if_neg hs] at h
              rcases hrec : collect tf cfg fuel (List.map Name.str tc.dependencies)
                  { st with taskStack := stackPush st.taskStack tc.name } with e | st2
              · rw [hrec] at h; dsimp only at h; simp at h
              · rw [hrec] at h; dsimp only at h
                obtain ⟨⟨A1, hA1⟩, I1b, I1c⟩ :=
                  ih (List.map Name.str tc.dependencies)
                    { st with taskStack := stackPush st.taskStack tc.name } st2 hrec
                obtain ⟨⟨A2, hA2⟩, I2b, I2c⟩ :=
                  ih rest ⟨st2.tasks.add tc, stackPop st2.taskStack⟩ st' h
                have e1 : ({ st with taskStack := stackPush st.taskStack tc.name } :
                    CollectionState).tasks.All = st.tasks.All := rfl
                rw [e1] at hA1
                have e2 : (⟨st2.tasks.add tc, stackPop st2.taskStack⟩ :
                    CollectionState).tasks.All = st2.tasks.All ++ [tc] := rfl
                rw [e2] at hA2
                obtain ⟨hname, hwf⟩ := buildTaskConfig_ok hb
                have htc_mem : tc ∈ st'.tasks.All := by
                  rw [hA2]
                  exact List.mem_append_left A2 (List.mem_append_right st2.tasks.All
                    (List.mem_singleton.mpr rfl))
                refine ⟨?_, ?_, ?_⟩
                · refine ⟨A1 ++ ([tc] ++ A2), ?_⟩
                  rw [hA2, hA1]
                  simp [List.append_assoc]
                · intro s0 hs0
                  rcases List.mem_cons.mp hs0 with h0 | h0
                  · rw [h0]
                    exact ⟨n, hp, ⟨tc, htc_mem, hname⟩⟩
                  · exact I2b s0 h0
                · intro hDF
                  have hDF2 : DepFirstTC st2.tasks.All := I1c hDF
                  apply I2c
                  apply DepFirstTC_snoc hDF2
                  intro d hd
                  have hwfd := hwf d hd
                  have hrt := ParseName_roundtrip hwfd
                  have hmem : d.str ∈ List.map Name.str tc.dependencies :=
                    List.mem_map.mpr ⟨d, hd, rfl⟩
                  obtain ⟨n2, hpn2, hnamed⟩ := I1b d.str hmem
                  have hn2 : n2 = d := by
                    rw [hrt] at hpn2
                    injection hpn2 with h2
                    exact h2.symm
                  rw [← hn2]
                  exact hnamed
          · rw [hb] at h; dsimp only at h; simp at h
          · rw [hb] at h; dsimp only at h; simp at h

/-! ## Claim theorems -/

/-- Claim C1: for every dependency input accepted by the collector (in
particular every acyclic one), the resulting TaskCollection is
dependency-first: for any TaskConfig T in the sequence, every Name that T
depends on is the Name of a TaskConfig strictly earlier in the sequence. -/
theorem collect_accepted_is_dependency_first
    (tf : Name → Resource → EngineTask) (cfg : Config) (fuel : Nat)
    (req : List String) (col : TaskCollection)
    (h : collectTasks tf cfg fuel req = .ok col) :
    DepFirstTC col.All := by
  unfold collectTasks at h
  rcases hc : collect tf cfg fuel req emptyCollectionState with e | st
  · rw [hc] at h; simp [Except.map] at h
  · rw [hc] at h
    simp only [Except.map] at h
    injection h with h
    rw [← h]
    exact (collect_inv tf cfg fuel req emptyCollectionState st hc).2.2 DepFirstTC_nil

/-- Witness for C1: the diamond request is accepted and its collection is
dependency-first. -/
theorem collect_accepted_is_dependency_first_witness :
    DepFirstTC diamondCollection.All :=
  collect_accepted_is_dependency_first trivialTaskFor diamondConfig 10 ["A"]
    diamondCollection rfl

/-- Claim C2: on every exit path of the execution engine, the stop behavior is
invoked exactly once on every started task, in strict reverse start order, and
on no task that was not started (the stop-invocation Name sequence is exactly
the reverse of the run-invocation Name sequence); in particular for ordered
tasks A, B, C where B's run fails, the runs are A then B (C never runs), the
stops are B then A (C is never stopped), and the reported error identifies B. -/
theorem executeTasks_cleanup_reverse_order :
    (∀ (cfgs : List TaskConfig) (ctx : ExecuteContext),
      stoppedNames (executeTasks cfgs ctx).stopEvents =
        (ranNames (executeTasks cfgs ctx).runEvents).reverse) ∧
    ranNames (executeTasks demoABC (freshCtx idResolver)).runEvents =
      [nameA, nameB] ∧
    stoppedNames (executeTasks demoABC (freshCtx idResolver)).stopEvents =
      [nameB, nameA] ∧
    (executeTasks demoABC (freshCtx idResolver)).err =
      some (runErrorMessage nameB "boom") := by
  refine ⟨?_, rfl, rfl, rfl⟩
  intro cfgs ctx
  show stoppedNames (stopEventsOf (execLoop cfgs ctx).ctx (reversed (execLoop cfgs ctx).started)) =
    (ranNames (execLoop cfgs ctx).trace).reverse
  rw [stoppedNames_stopEventsOf, reversed_eq_reverse, List.map_reverse,
    execLoop_started_names]

/-- Claim C9: a Name is in the engine's modified set exactly when it was there
initially or some run invocation of that Name returned modified true with no
error; with a fresh context the modified set thus contains only Names of tasks
that completed successfully with modified true. -/
theorem executeTasks_modified_set (cfgs : List TaskConfig) (ctx : ExecuteContext)
    (n : Name) :
    n ∈ (executeTasks cfgs ctx).ctx.modified ↔
      n ∈ ctx.modified ∨
        ∃ ds dm, Event.ran n ds dm true none ∈ (executeTasks cfgs ctx).runEvents := by
  show n ∈ (execLoop cfgs ctx).ctx.modified ↔
    n ∈ ctx.modified ∨ ∃ ds dm, Event.ran n ds dm true none ∈ (execLoop cfgs ctx).trace
  exact execLoop_modified_iff cfgs ctx n

/-- Claim C5: during execution from a fresh context, a task Y is invoked with
depsModified true exactly when some earlier run invocation of a Name in Y's
dependency list returned modified true with no error; so if a dependency X of
Y completed with modified true, Y observes depsModified true, and if no
dependency of Y was marked modified, Y observes depsModified false. -/
theorem executeTasks_depsModified (cfgs : List TaskConfig) (env : Resolver)
    (pre : List Event) (n : Name) (ds : List Name) (dm mo : Bool)
    (er : Option String) (post : List Event)
    (h : (executeTasks cfgs (freshCtx env)).runEvents =
      pre ++ Event.ran n ds dm mo er :: post) :
    dm = true ↔ ∃ d ∈ ds, ∃ dsX dX, Event.ran d dsX dX true none ∈ pre := by
  have h2 : (execLoop cfgs (freshCtx env)).trace =
      pre ++ Event.ran n ds dm mo er :: post := h
  have H := execLoop_depsModified cfgs (freshCtx env) pre n ds dm mo er post h2
  rw [H]
  refine exists_congr fun d => and_congr_right fun _ => ?_
  have hfresh : (freshCtx env).modified = [] := rfl
  rw [hfresh]
  simp

/-- Witness for C5: running X (which reports modified true) and then Y (which
depends on X) from a fresh context, Y observes depsModified true. -/
theorem executeTasks_depsModified_witness :
    (true = true ↔ ∃ d ∈ [nameX], ∃ dsX dX,
      Event.ran d dsX dX true none ∈ [Event.ran nameX [] false true none]) :=
  executeTasks_depsModified [tcX, tcY] idResolver
    [Event.ran nameX [] false true none] nameY [nameX] true false none [] rfl

/-- Counterexample to C3: an execution-time resolution error is surfaced
verbatim from the resolver (the engine returns it without wrapping), so the
surfaced error boom for task mytask:default does not name the offending task
identifier. -/
theorem resolution_error_not_named :
    (executeTasks [tcMytask] (freshCtx boomResolver)).err = some "boom" ∧
    (executeTasks [tcMytask] (freshCtx boomResolver)).runEvents = [] ∧
    ¬ Mentions "boom" nameM.str := by
  refine ⟨rfl, rfl, ?_⟩
  rintro ⟨a, b, hab⟩
  have hl := congrArg String.length hab
  rw [String.length_append, String.length_append] at hl
  have h4 : ("boom" : String).length = 4 := rfl
  have h14 : nameM.str.length = 14 := rfl
  rw [h4, h14] at hl
  omega

/-- Amended C3: every error surfaced by the engine except execution-time
resolution errors names the offending task: a run error is the wrap failed to
execute task %q and mentions the task's Name, the cycle error mentions every
identifier on the reported path, the unknown-resource error mentions the
resource identifier, and the parse error mentions the invalid identifier;
resolution errors are returned unchanged from the resolver. -/
theorem surfaced_errors_name_task :
    (∀ (cfgs : List TaskConfig) (ctx : ExecuteContext) (n : Name) (ds : List Name)
        (dm mo : Bool) (e : String),
      Event.ran n ds dm mo (some e) ∈ (executeTasks cfgs ctx).runEvents →
        (executeTasks cfgs ctx).err = some (runErrorMessage n e) ∧
        Mentions (runErrorMessage n e) n.str) ∧
    (∀ (path : List String) (p : String), p ∈ path →
      Mentions (cycleMessage path) p) ∧
    (∀ r : String, Mentions (unknownResourceMessage r) r) ∧
    (∀ s : String, Mentions (invalidNameMessage s) s) := by
  refine ⟨?_, ?_, ?_, ?_⟩
  · intro cfgs ctx n ds dm mo e hmem
    refine ⟨execLoop_run_error cfgs ctx n ds dm mo e hmem, ?_⟩
    refine ⟨"failed to execute task " ++ "\"", "\"" ++ ": " ++ e, ?_⟩
    simp [runErrorMessage, quoteS, String.append_assoc]
    rfl
  · intro path p hp
    obtain ⟨a, b, hab⟩ := joinComma_mentions path p hp
    refine ⟨"Invalid dependency cycle: " ++ a, b, ?_⟩
    show cycleMessage path = "Invalid dependency cycle: " ++ a ++ p ++ b
    rw [cycleMessage, hab]
    simp [String.append_assoc]
  · intro r
    refine ⟨"resource " ++ "\"", "\"" ++ " does not exist", ?_⟩
    simp [unknownResourceMessage, quoteS, String.append_assoc]
    rfl
  · intro s
    refine ⟨"invalid task name " ++ "\"", "\"", ?_⟩
    simp [invalidNameMessage, quoteS, String.append_assoc]
    rfl

/-- Witness for the amended C3: the run failure of B in the A, B, C scenario
is surfaced as the wrap that mentions B's identifier, and the cycle message
for the path A:default, B:default mentions A:default. -/
theorem surfaced_errors_name_task_witness :
    ((executeTasks demoABC (freshCtx idResolver)).err =
        some (runErrorMessage nameB "boom") ∧
      Mentions (runErrorMessage nameB "boom") nameB.str) ∧
    Mentions (cycleMessage [nameA.str, nameB.str]) nameA.str :=
  ⟨surfaced_errors_name_task.1 demoABC (freshCtx idResolver) nameB [] false false
      "boom" (by decide),
    surfaced_errors_name_task.2.1 [nameA.str, nameB.str] nameA.str (by decide)⟩

/-- Counterexample to C4: the volume variant is in the data model's variant
set, yet a volume Resource reaches the fatal unrecognized-kind branch of the
Task Factory, because the dispatch switch has no volume case. -/
theorem buildTaskConfig_volume_reaches_fatal :
    (buildTaskConfig trivialTaskFor nameV (.volume [])).isFatal = true := rfl

theorem buildOf_not_fatal (x : Except String TaskConfig) :
    (buildOf x).isFatal = false := by
  cases x <;> rfl

/-- Amended C4: the Task Factory maps the six variant kinds image, job, mount,
alias, env and compose to Task constructors; the volume kind, although in the
data model's variant set, is the one (and only) variant that reaches the fatal
unrecognized-kind branch. -/
theorem buildTaskConfig_fatal_iff_volume (tf : Name → Resource → EngineTask)
    (n : Name) (res : Resource) :
    (buildTaskConfig tf n res).isFatal = true ↔ res.isVolume = true := by
  cases res with
  | image ds => simp [buildTaskConfig, buildOf_not_fatal, Resource.isVolume]
  | job c => simp [buildTaskConfig, buildOf_not_fatal, Resource.isVolume]
  | mount ds => simp [buildTaskConfig, buildOf_not_fatal, Resource.isVolume]
  | aliasRes ds => simp [buildTaskConfig, buildOf_not_fatal, Resource.isVolume]
  | env c => simp [buildTaskConfig, buildOf_not_fatal, Resource.isVolume]
  | compose ds => simp [buildTaskConfig, buildOf_not_fatal, Resource.isVolume]
  | volume ds => simp [buildTaskConfig, BuildResult.isFatal, Resource.isVolume]

/-- Claim C6: for the diamond graph (A depends on B and C, and both B and C
depend on D), collecting the request for A produces a sequence in which D's
TaskConfig appears twice (the collector does not memoize expanded Names across
sibling branches), and the subsequent execution runs D twice. -/
theorem diamond_dependency_duplicates :
    collectNames trivialTaskFor diamondConfig 10 ["A"] =
      .ok [nameD, nameB, nameD, nameC, nameA] ∧
    [nameD, nameB, nameD, nameC, nameA].count nameD = 2 ∧
    ranNames (Run trivialTaskFor idResolver 10 diamondConfig ["A"]).runEvents =
      [nameD, nameB, nameD, nameC, nameA] := by
  refine ⟨rfl, by decide, rfl⟩

/-- Claim C7: requesting A where A depends on B and B depends on A fails with
the cyclic-dependency error whose reported path holds A:default and B:default
exactly once each, in encounter order, and no TaskCollection is produced: the
run has no run events and no stop events. -/
theorem cycle_aborts_with_path :
    collectNames trivialTaskFor cycleConfig 10 ["A"] =
      .error (.failure (cycleMessage [nameA.str, nameB.str])) ∧
    cycleMessage [nameA.str, nameB.str] =
      "Invalid dependency cycle: A:default, B:default" ∧
    [nameA.str, nameB.str].count nameA.str = 1 ∧
    [nameA.str, nameB.str].count nameB.str = 1 ∧
    (Run trivialTaskFor idResolver 10 cycleConfig ["A"]).error =
      some (.failure (cycleMessage [nameA.str, nameB.str])) ∧
    (Run trivialTaskFor idResolver 10 cycleConfig ["A"]).runEvents = [] ∧
    (Run trivialTaskFor idResolver 10 cycleConfig ["A"]).stopEvents = [] := by
  refine ⟨rfl, rfl, by decide, by decide, rfl, rfl, rfl⟩

/-- Claim C8: for every resolver, JobConfig.Resolve and EnvConfig.Resolve
return a new variable-substituted copy and leave every field of the original
receiver unchanged on every path (the receiver component of the embedded
method equals the original whether the call succeeds or fails); the fields the
method does not substitute are identical in the returned copy, and on success
the substituted fields carry the resolver's outputs. -/
theorem resolve_returns_substituted_copy :
    (∀ (r : Resolver) (c : JobConfig),
      (JobConfig.Resolve r c).1 = c ∧
      jobUntouchedFields (JobConfig.Resolve r c).2.1 c ∧
      ((JobConfig.Resolve r c).2.2 = none →
        (JobConfig.Resolve r c).2.1.Env = (r.resolveSlice c.Env).1 ∧
        (JobConfig.Resolve r c).2.1.WorkingDir = (r.resolve c.WorkingDir).1 ∧
        (JobConfig.Resolve r c).2.1.User = (r.resolve c.User).1 ∧
        (JobConfig.Resolve r c).2.1.NetMode = (r.resolve c.NetMode).1)) ∧
    (∀ (r : Resolver) (c : EnvConfig),
      (EnvConfig.Resolve r c).1 = c ∧
      (EnvConfig.Resolve r c).2.1.annotations = c.annotations ∧
      ((EnvConfig.Resolve r c).2.2 = none →
        (EnvConfig.Resolve r c).2.1.Files = (r.resolveSlice c.Files).1 ∧
        (EnvConfig.Resolve r c).2.1.Variables = (r.resolveSlice c.Variables).1)) := by
  constructor
  · intro r c
    unfold JobConfig.Resolve
    rcases h1 : r.resolveSlice c.Env with ⟨env1, oe1⟩
    cases oe1 with
    | some e =>
      dsimp only
      refine ⟨rfl, ⟨rfl, rfl, rfl, rfl, rfl, rfl, rfl, rfl, rfl, rfl, rfl, rfl, rfl, rfl⟩, ?_⟩
      intro hnone
      simp at hnone
    | none =>
      dsimp only
      rcases h2 : r.resolve c.WorkingDir with ⟨wd, oe2⟩
      cases oe2 with
      | some e =>
        dsimp only
        refine ⟨rfl, ⟨rfl, rfl, rfl, rfl, rfl, rfl, rfl, rfl, rfl, rfl, rfl, rfl, rfl, rfl⟩, ?_⟩
        intro hnone
        simp at hnone
      | none =>
        dsimp only
        rcases h3 : r.resolve c.User with ⟨u, oe3⟩
        cases oe3 with
        | some e =>
          dsimp only
          refine ⟨rfl, ⟨rfl, rfl, rfl, rfl, rfl, rfl, rfl, rfl, rfl, rfl, rfl, rfl, rfl, rfl⟩, ?_⟩
          intro hnone
          simp at hnone
        | none =>
          dsimp only
          rcases h4 : r.resolve c.NetMode with ⟨nm, oe4⟩
          dsimp only
          refine ⟨rfl, ⟨rfl, rfl, rfl, rfl, rfl, rfl, rfl, rfl, rfl, rfl, rfl, rfl, rfl, rfl⟩, ?_⟩
          intro hnone
          refine ⟨rfl, rfl, rfl, ?_⟩
          exact congrArg Prod.fst h4
  · intro r c
    unfold EnvConfig.Resolve
    rcases h1 : r.resolveSlice c.Files with ⟨fs, oe1⟩
    cases oe1 with
    | some e =>
      dsimp only
      refine ⟨rfl, rfl, ?_⟩
      intro hnone
      simp at hnone
    | none =>
      dsimp only
      rcases h2 : r.resolveSlice c.Variables with ⟨vs, oe2⟩
      dsimp only
      refine ⟨rfl, rfl, ?_⟩
      intro hnone
      exact ⟨rfl, congrArg Prod.fst h2⟩

/-- Witness for C8: resolving a sample job with the identity resolver leaves
the receiver unchanged, preserves the untouched fields, and substitutes the
variable fields with the resolver's outputs. -/
theorem resolve_returns_substituted_copy_witness :
    (JobConfig.Resolve idResolver sampleJob).1 = sampleJob ∧
    jobUntouchedFields (JobConfig.Resolve idResolver sampleJob).2.1 sampleJob ∧
    (JobConfig.Resolve idResolver sampleJob).2.1.Env =
      (idResolver.resolveSlice sampleJob.Env).1 := by
  have H := resolve_returns_substituted_copy.1 idResolver sampleJob
  exact ⟨H.1, H.2.1, (H.2.2 rfl).1⟩

/-- Claim C10: when a JobConfig's Mounts, Depends and Use entries all parse as
valid Names, Dependencies returns the mount Names first, then the explicit
Depends Names, then the Use image Name last, with no error; when any entry
fails to parse, Dependencies returns the empty list together with that parse
error (the entries are parsed in the order Depends, Mounts, Use). -/
theorem job_dependencies_order_and_errors :
    (∀ (c : JobConfig) (ds ms : List Name) (u : Name),
      ParseNames c.Depends = .ok ds → ParseNames c.Mounts = .ok ms →
      ParseName c.Use = .ok u →
      c.Dependencies = (ms ++ (ds ++ [u]), none)) ∧
    (∀ (c : JobConfig) (e : String),
      ParseNames c.Depends = .error e → c.Dependencies = ([], some e)) ∧
    (∀ (c : JobConfig) (ds : List Name) (e : String),
      ParseNames c.Depends = .ok ds → ParseNames c.Mounts = .error e →
      c.Dependencies = ([], some e)) ∧
    (∀ (c : JobConfig) (ds ms : List Name) (e : String),
      ParseNames c.Depends = .ok ds → ParseNames c.Mounts = .ok ms →
      ParseName c.Use = .error e → c.Dependencies = ([], some e)) := by
  refine ⟨?_, ?_, ?_, ?_⟩
  · intro c ds ms u h1 h2 h3
    unfold JobConfig.Dependencies
    rw [h1, h2, h3]
  · intro c e h1
    unfold JobConfig.Dependencies
    rw [h1]
  · intro c ds e h1 h2
    unfold JobConfig.Dependencies
    rw [h1, h2]
  · intro c ds ms e h1 h2 h3
    unfold JobConfig.Dependencies
    rw [h1, h2, h3]

/-- Witness for C10: the sample job with Depends d1, Mounts m1 and Use img
yields the mount Name, then the explicit dependency, then the image Name. -/
theorem job_dependencies_order_and_errors_witness :
    sampleJob.Dependencies =
      ([⟨"m1", "default"⟩] ++ ([⟨"d1", "default"⟩] ++ [⟨"img", "default"⟩]),
        none) :=
  job_dependencies_order_and_errors.1 sampleJob [⟨"d1", "default"⟩]
    [⟨"m1", "default"⟩] ⟨"img", "default"⟩ rfl rfl rfl
